import Mathlib

/-!
Shallow embedding of `manager/__init__.py` (the manage.py library): runtime
values, argument descriptors (`Arg`), command descriptors (`Command`),
signature inspection (`InspectedFunction`), the registry (`Manager`), and the
rendering of descriptors into generic-parser directives.  Python dictionaries
are modelled as association lists with last-write-wins update; Python `None`
is the value `Val.none`; raising is modelled with `Except`.
-/

set_option autoImplicit false

namespace ManagePy

/-- Runtime type tags, the possible results of Python `type(v)` for the
values this library manipulates. -/
inductive Ty where
  | noneType
  | boolTy
  | intTy
  | strTy
  | listTy
  | positionalTy
  | errorTy
  deriving DecidableEq, Repr

/-- Runtime values: Python `None`, booleans, integers, strings, the
`positional(...)` wrapper from the source, and instances of the library's
`Error` exception class (carrying their message). -/
inductive Val where
  | none
  | bool (b : Bool)
  | int (n : Int)
  | str (s : String)
  | positionalV (v : Val)
  | err (msg : String)
  deriving DecidableEq, Repr

/-- Python `type(v)` on an embedded value. -/
def pytype : Val → Ty
  | .none => .noneType
  | .bool _ => .boolTy
  | .int _ => .intTy
  | .str _ => .strTy
  | .positionalV _ => .positionalTy
  | .err _ => .errorTy

/-- An argument descriptor, the `Arg` class.  The constructor stores
`self._kwargs`: the class-level defaults (`help`, `required`, `type`) updated
with the caller's keyword arguments.  `default` and `dest` are `Option`s whose
`none` means the corresponding key was not passed at all (so it is absent from
`_kwargs` and the corresponding attribute is unset); `type := Option.none`
models the key present with Python `None` as its value, as in the class
defaults. -/
structure Arg where
  name : String
  help : String := "no description"
  required : Bool := false
  type : Option Ty := Option.none
  default : Option Val := Option.none
  dest : Option String := Option.none
  deriving DecidableEq, Repr

/-- `Arg.positional`: `self.required or isinstance(getattr(self, 'default',
None), positional)`. -/
def Arg.positional (a : Arg) : Bool :=
  a.required || (match a.default with
    | some (.positionalV _) => true
    | _ => false)

/-- `Arg.parser_name`: the bare name when positional, `--name` otherwise. -/
def Arg.parser_name (a : Arg) : String :=
  if a.positional then a.name else "--" ++ a.name

/-- `Arg.unwrap_default`: unwraps the `positional(...)` marker, identity
otherwise. -/
def Arg.unwrap_default (_ : Arg) (default : Val) : Val :=
  match default with
  | .positionalV v => v
  | v => v

/-- The keyword-argument dictionary handed to the generic parser's
`add_argument`, after `Arg.kwargs` has edited it.  Fields of `Option` type are
`none` when the corresponding key is absent from the dictionary; `type` is
doubly optional because the key can be present with value `None`. -/
structure ParserKwargs where
  help : String
  required : Option Bool
  type : Option (Option Ty)
  default : Option Val
  nargs : Option String
  action : Option String
  dest : Option String
  deriving DecidableEq, Repr

/-- `Arg.kwargs`: copies `_kwargs` and edits it: drops `required` for
positional arguments, unwraps a present `default`, adds `nargs='?'` for
optional positionals, and for a boolean type with default `False` switches to
`action='store_true'` and deletes `type`.  The guard `self.type == bool and
self.default is False` reads the `default` attribute directly, so when `type`
is `bool` but no default was ever supplied the property raises
`AttributeError`; that failure is the `Except.error` case. -/
def Arg.kwargs (a : Arg) : Except String ParserKwargs :=
  let required? : Option Bool := if a.positional then Option.none else some a.required
  let default? : Option Val := a.default.map a.unwrap_default
  let nargs? : Option String :=
    if !a.required && a.positional then some "?" else Option.none
  if a.type = some .boolTy then
    match a.default with
    | Option.none => .error "AttributeError: default"
    | some d =>
      if d = .bool false then
        .ok { help := a.help, required := required?, type := Option.none,
              default := default?, nargs := nargs?, action := some "store_true",
              dest := a.dest }
      else
        .ok { help := a.help, required := required?, type := some a.type,
              default := default?, nargs := nargs?, action := Option.none,
              dest := a.dest }
  else
    .ok { help := a.help, required := required?, type := some a.type,
          default := default?, nargs := nargs?, action := Option.none,
          dest := a.dest }

/-! ### Python dictionaries as association lists -/

/-- Python dictionary update `d[k] = v`: replaces the value in place when the
key is present (keeping its position), appends otherwise. -/
def dictSet {α : Type} : List (String × α) → String → α → List (String × α)
  | [], k, v => [(k, v)]
  | (k', v') :: rest, k, v =>
    if k' = k then (k', v) :: rest else (k', v') :: dictSet rest k v

/-- Python dictionary lookup `d.get(k)` / `d[k]` (as an `Option`). -/
def dictGet {α : Type} (l : List (String × α)) (k : String) : Option α :=
  (l.find? (fun p => p.1 = k)).map (fun p => p.2)

/-- Python `dict(pairs)`: builds a dictionary from a pair list, later pairs
overwriting earlier ones with the same key. -/
def dictOf {α : Type} (l : List (String × α)) : List (String × α) :=
  l.foldl (fun d p => dictSet d p.1 p.2) []

/-! ### Signature inspection (`InspectedFunction`) -/

/-- What Python's `inspect.getargspec` reports about a callable: the declared
parameter names, the optional variadic-positional and variadic-keyword names,
the trailing default values, and whether the callable carries a bound receiver
(`im_self` / `__self__`). -/
structure Signature where
  arguments : List String
  varargs : Option String := Option.none
  varkw : Option String := Option.none
  defaults : Option (List Val) := Option.none
  isMethod : Bool := false
  deriving DecidableEq, Repr

namespace InspectedFunction

/-- `InspectedFunction._inspect`: unpacks `getargspec` keeping only the
argument names and the defaults; the variadic components are bound to `_` and
discarded, and nothing is raised on their account. -/
def inspect (sig : Signature) : Except String (List String × Option (List Val)) :=
  .ok (sig.arguments, sig.defaults)

/-- `InspectedFunction.argument_names`: drops the leading receiver parameter
when the callable is a bound method. -/
def argument_names (sig : Signature) : List String :=
  sig.arguments.drop (if sig.isMethod then 1 else 0)

/-- `InspectedFunction.args`: the argument names minus the trailing defaulted
ones (`argument_names[:-len(defaults)]`, the whole list when there are no
defaults). -/
def args (sig : Signature) : List String :=
  match sig.defaults with
  | Option.none => argument_names sig
  | some [] => argument_names sig
  | some ds => (argument_names sig).take ((argument_names sig).length - ds.length)

/-- `InspectedFunction.kwargs`:
`dict(zip(reversed(self.arguments), reversed(self.defaults)))` — pairs the
trailing parameter names with the default values. -/
def kwargs (sig : Signature) : List (String × Val) :=
  match sig.defaults with
  | Option.none => []
  | some ds => dictOf (sig.arguments.reverse.zip ds.reverse)

end InspectedFunction

/-- `camelcase_to_underscore`: the regex `(.)([A-Z]{1})` substituted with
`\1_\2` (non-overlapping, left to right, resuming after each two-character
match), then lowercased. -/
def camelSub : List Char → List Char
  | a :: b :: rest =>
    if 'A' ≤ b && b ≤ 'Z' then a :: '_' :: b :: camelSub rest
    else a :: camelSub (b :: rest)
  | l => l

/-- `camelcase_to_underscore` on strings. -/
def camelcase_to_underscore (text : String) : String :=
  String.mk ((camelSub text.toList).map Char.toLower)

/-! ### Command descriptors -/

/-- The mutable state of a `Command` instance: its data attributes and the
argument-descriptor list built by `collect_arguments`.  `nspace` embeds the
Python attribute `namespace` (a Lean keyword). -/
structure Command where
  name : String
  nspace : Option String := Option.none
  description : String := "no description"
  args : List Arg := []
  arg_names : List String := []
  deriving DecidableEq, Repr

/-- `Command.path`: the dotted lookup path, `namespace.name` when a namespace
is set, the bare name otherwise. -/
def Command.path (c : Command) : String :=
  match c.nspace with
  | Option.none => c.name
  | some ns => ns ++ "." ++ c.name

/-- `Command.has_argument`: membership of `name` in the names of the collected
descriptors. -/
def has_argument (args : List Arg) (name : String) : Bool :=
  decide (name ∈ args.map (fun a => a.name))

/-- `Command._create_arguments`: one `Arg` per inspected parameter name, in
order; `default` is `kwargs.get(name)` (Python `None` when absent), `required`
is the negation of membership in the defaults dictionary, and `type` is the
runtime type of the default when one exists, Python `None` otherwise. -/
def _create_arguments (names : List String) (kw : List (String × Val)) : List Arg :=
  names.map (fun name =>
    { name := name,
      default := some ((dictGet kw name).getD Val.none),
      type := (dictGet kw name).map pytype,
      required := (dictGet kw name).isNone })

/-- `Command.register_argument`: validates `arg.dest` when that attribute is
set, `arg.name` otherwise, against the known parameter names, raising
`Exception('Invalid arg ...')` on failure; replaces in place at the ordinal
position of the validated name when a descriptor named `arg.name` already
exists, appends otherwise.  The out-of-range replacement (`IndexError`) can
only occur when the descriptor list is shorter than the parameter list. -/
def register_argument (args : List Arg) (arg : Arg) (arg_names : List String) :
    Except String (List Arg) :=
  let dest := arg.dest.getD arg.name
  if dest ∈ arg_names then
    if has_argument args arg.name then
      let position := arg_names.indexOf dest
      if position < args.length then .ok (args.set position arg)
      else .error "IndexError"
    else .ok (args ++ [arg])
  else .error ("Invalid arg " ++ arg.name)

/-- `Command.collect_arguments` (together with the surrounding `__init__`
code): inspects the callable, creates one descriptor per parameter and
registers each in turn, returning the descriptor list and the inspected
parameter names. -/
def collect_arguments (sig : Signature) : Except String (List Arg × List String) := do
  let names := InspectedFunction.argument_names sig
  let kw := InspectedFunction.kwargs sig
  let created := _create_arguments names kw
  let args ← created.foldlM (fun acc a => register_argument acc a names) []
  pure (args, names)

/-- `Command.add_argument`: registration of an explicit override against the
command's own `arg_names`. -/
def Command.add_argument (c : Command) (arg : Arg) : Except String Command := do
  let args ← register_argument c.args arg c.arg_names
  pure { c with args := args }

/-! ### Parsing and execution -/

/-- The namespace object returned by the generic parser's `parse_args`: a
mapping from destination names to parsed values.  `hasattr` is key presence,
`getattr` is lookup. -/
abbrev PyNamespace := List (String × Val)

/-- The body of `Command.parse` after `parse_args` has produced a namespace:
walks `zip(self.args, self.arg_names)` in order, appending the parsed value of
every required descriptor to the positional list and recording an entry in the
keyword mapping for an optional descriptor exactly when the namespace carries
an attribute for it; `getattr` on a required name missing from the namespace
raises `AttributeError`. -/
def parseStep (parsed : PyNamespace) (acc : List Val × List (String × Val))
    (p : Arg × String) : Except String (List Val × List (String × Val)) :=
  if p.1.required then
    match dictGet parsed p.2 with
    | some v => .ok (acc.1 ++ [v], acc.2)
    | Option.none => .error "AttributeError"
  else
    match dictGet parsed p.2 with
    | some v => .ok (acc.1, dictSet acc.2 p.2 v)
    | Option.none => .ok acc

/-- The loop of `Command.parse` over `zip(self.args, self.arg_names)`. -/
def parseNamespace (args : List Arg) (arg_names : List String) (parsed : PyNamespace) :
    Except String (List Val × List (String × Val)) :=
  (args.zip arg_names).foldlM (parseStep parsed) ([], [])

/-- The outcome of invoking `self.run(*args, **kwargs)`: a returned value, a
raised library `Error` (the domain error), or any other raised exception. -/
inductive RunOutcome where
  | ok (v : Val)
  | raisesError (msg : String)
  | raisesFault (f : String)
  deriving DecidableEq, Repr

/-- A fault escaping `Command.execute`. -/
inductive Fault where
  | unboundLocalError
  | fault (f : String)
  deriving DecidableEq, Repr

/-- `Command.execute` after parsing, under Python 2 scoping (the code's
`im_self`/`getargspec` era): `try: result = self.run(...)` / `except Error as
result: pass` / `finally: return self.puts(result)`.  A returned value or a
raised `Error` leaves `result` bound, and the `finally` clause returns
`self.puts(result)` — the `Except.ok` payload is the value handed to `puts`,
with a raised `Error` instance handed over as the result itself.  Any other
exception matches no handler and leaves the local `result` unbound, so
evaluating `self.puts(result)` inside `finally` raises `UnboundLocalError`,
which supersedes the in-flight exception: the original fault is discarded and
`UnboundLocalError` is what propagates. -/
def Command.execute (outcome : RunOutcome) : Except Fault Val :=
  match outcome with
  | .ok v => .ok v
  | .raisesError msg => .ok (.err msg)
  | .raisesFault _ => .error .unboundLocalError

/-! ### The registry (`Manager`) -/

/-- `Manager`: the command registry, a dictionary from dotted paths to
commands. -/
structure Manager where
  commands : List (String × Command) := []
  deriving DecidableEq, Repr

/-- `Manager.add_command`: `self.commands[command.path] = command`. -/
def Manager.add_command (m : Manager) (c : Command) : Manager :=
  { commands := dictSet m.commands c.path c }

/-- `Manager.merge`: iterates the source registry's entries, overwrites each
command's `namespace` attribute when an explicit namespace is given, and
registers the command into the target.  The overwrite mutates the shared
command object, so the pair returned is (the grown target, the source registry
as left after the merge: same keys, mutated commands). -/
def Manager.merge (self other : Manager) (nspace : Option String) :
    Manager × Manager :=
  let upd : Command → Command := fun c =>
    match nspace with
    | some ns => { c with nspace := some ns }
    | Option.none => c
  (other.commands.foldl (fun acc p => acc.add_command (upd p.2)) self,
   { commands := other.commands.map (fun p => (p.1, upd p.2)) })

/-! ### Environment-file parsing -/

/-- Python `content.split` at newline characters, on the underlying character
list (the multiline regex scans line by line; `^` anchors at the start of the
string and after every newline, `$` and `.` stop before the next newline). -/
def splitLines : List Char → List (List Char)
  | [] => [[]]
  | c :: rest =>
    match splitLines rest with
    | [] => [[c]]
    | l :: ls => if c = '\n' then [] :: l :: ls else (c :: l) :: ls

/-- Character class `[A-Za-z_0-9]` of the environment-line regex. -/
def isEnvChar (c : Char) : Bool :=
  ('A' ≤ c && c ≤ 'Z') || ('a' ≤ c && c ≤ 'z') || ('0' ≤ c && c ≤ '9') || c = '_'

/-- One line matched against `^([A-Za-z_0-9]+)=(.*)$`: a nonempty maximal
(greedy) run of name characters, an equals sign, and the rest of the line as
the value. -/
def envLine? (line : List Char) : Option (String × List Char) :=
  let name := line.takeWhile isEnvChar
  match line.dropWhile isEnvChar with
  | '=' :: value => if name = [] then Option.none else some (String.mk name, value)
  | _ => Option.none

/-- Python `s.strip(c)` for a single character: removes every copy of `c` from
both ends. -/
def stripChar (cs : List Char) (c : Char) : List Char :=
  ((cs.dropWhile (fun x => x = c)).reverse.dropWhile (fun x => x = c)).reverse

/-- Python `s.startswith(q)` for a one-character `q`. -/
def startsWithChar (cs : List Char) (c : Char) : Bool :=
  cs.head? = some c

/-- Python `s.endswith(q)` for a one-character `q`. -/
def endsWithChar (cs : List Char) (c : Char) : Bool :=
  cs.getLast? = some c

/-- The inner `strip_quotes` of `Manager.parse_env`: tries the single quote
then the double quote; when the value both starts and ends with that quote
character it is stripped of all surrounding copies of it, otherwise the value
is returned unchanged. -/
def strip_quotes (cs : List Char) : List Char :=
  if startsWithChar cs '\'' && endsWithChar cs '\'' then stripChar cs '\''
  else if startsWithChar cs '"' && endsWithChar cs '"' then stripChar cs '"'
  else cs

/-- `Manager.parse_env`: `findall` of the multiline anchored regex (one
candidate match per line) followed by the dictionary comprehension stripping
quotes from each value. -/
def Manager.parse_env (content : String) : List (String × String) :=
  dictOf (((splitLines content.data).filterMap envLine?).map
    (fun p => (p.1, String.mk (strip_quotes p.2))))

/-! ### The generic argument parser

`Command.parser` builds an `argparse.ArgumentParser` and calls
`parser.add_argument(arg.parser_name, **arg.kwargs)` per descriptor.  The
parser itself is an external collaborator (the Python standard library);
`parse_args` below models from the spec the fragment of its behaviour
exercised by the directives this library emits: bare positional names filled
left to right (optionally absent under `nargs='?'`), `--`-prefixed flags that
either take one value or act as zero-argument `store_true` switches, default
values applied to everything the raw argument vector leaves unset, and type
coercion of raw tokens. -/

/-- One `add_argument` call: the display name together with the keyword
directives. -/
abbrev ArgSpec := String × ParserKwargs

/-- `Command.parser`: the directives handed to the generic parser, one per
collected descriptor. -/
def Command.parser (c : Command) : Except String (List ArgSpec) :=
  c.args.mapM (fun a => (a.kwargs).map (fun kw => (a.parser_name, kw)))

/-- Whether a display name or raw token is flag-shaped (begins with `--`). -/
def isFlagToken (s : String) : Bool :=
  match s.data with
  | '-' :: '-' :: _ => true
  | _ => false

/-- The destination name of a directive: an explicit `dest`, else the display
name with a leading `--` removed. -/
def argDest (spec : ArgSpec) : String :=
  spec.2.dest.getD (if isFlagToken spec.1 then String.mk (spec.1.data.drop 2) else spec.1)

/-- Coercion of a raw token by the directive's `type`: absent or `None` leaves
the string, `int` parses it (rejecting non-numbers), `bool` is Python's truth
test on a string.  Other type tags are never emitted as value coercions. -/
def coerce (ty : Option (Option Ty)) (tok : String) : Except String Val :=
  match ty with
  | some (some .intTy) =>
    match tok.toInt? with
    | some n => .ok (.int n)
    | Option.none => .error ("invalid int value: " ++ tok)
  | some (some .boolTy) => .ok (.bool (tok ≠ ""))
  | some (some .strTy) => .ok (.str tok)
  | some (some _) => .error "unsupported type"
  | some Option.none => .ok (.str tok)
  | Option.none => .ok (.str tok)

/-- Token-consumption loop of the generic parser: flags are matched by display
name (consuming a value token unless they are `store_true` switches), other
tokens fill the positional queue in order.  Returns the namespace built so far
and the unfilled positional directives. -/
def runParser (optionals : List ArgSpec) :
    List String → List ArgSpec → PyNamespace →
    Except String (PyNamespace × List ArgSpec)
  | [], posQueue, ns => .ok (ns, posQueue)
  | tok :: rest, posQueue, ns =>
    if isFlagToken tok then
      match optionals.find? (fun p => p.1 = tok) with
      | Option.none => .error ("unrecognized arguments: " ++ tok)
      | some spec =>
        if spec.2.action = some "store_true" then
          runParser optionals rest posQueue (dictSet ns (argDest spec) (.bool true))
        else
          match rest with
          | [] => .error ("argument " ++ tok ++ ": expected one argument")
          | v :: rest2 =>
            match coerce spec.2.type v with
            | .error e => .error e
            | .ok value =>
              runParser optionals rest2 posQueue (dictSet ns (argDest spec) value)
    else
      match posQueue with
      | [] => .error ("unrecognized arguments: " ++ tok)
      | spec :: qrest =>
        match coerce spec.2.type tok with
        | .error e => .error e
        | .ok value => runParser optionals rest qrest (dictSet ns (argDest spec) value)

/-- `parser.parse_args(tokens)` over a directive list: runs the token loop,
errors out on a missing mandatory positional, and fills every still-unset
destination with its default (Python `None` when no default directive was
given). -/
def parse_args (specs : List ArgSpec) (tokens : List String) :
    Except String PyNamespace := do
  let optionals := specs.filter (fun p => isFlagToken p.1)
  let positionals := specs.filter (fun p => !isFlagToken p.1)
  let (ns, remainingPos) ← runParser optionals tokens positionals []
  let ns ← remainingPos.foldlM
    (fun acc spec =>
      if spec.2.nargs = some "?" then
        .ok (dictSet acc (argDest spec) (spec.2.default.getD Val.none))
      else .error "too few arguments") ns
  let ns := optionals.foldl
    (fun acc spec =>
      if (dictGet acc (argDest spec)).isSome then acc
      else dictSet acc (argDest spec) (spec.2.default.getD Val.none)) ns
  pure ns

/-- `Command.parse`: renders the command's parser directives, runs the generic
parser on the raw argument vector, and splits the namespace into the
positional list and keyword mapping. -/
def Command.parse (c : Command) (input_args : List String) :
    Except String (List Val × List (String × Val)) := do
  let specs ← c.parser
  let parsed ← parse_args specs input_args
  parseNamespace c.args c.arg_names parsed

/-! ### Command construction (`Command.__init__`) -/

/-- The attribute names `hasattr(self, key)` finds on a freshly constructed
`Command` instance: the class-level data attributes and the methods and
properties defined by the class. -/
def classAttrs : List String :=
  ["name", "namespace", "description", "run",
   "parse", "execute", "parser", "path", "puts",
   "add_argument", "register_argument", "has_argument",
   "collect_arguments", "_create_arguments", "__init__", "__call__"]

/-- The keyword loop of `Command.__init__`: each keyword naming an existing
attribute is set on the instance, any other keyword raises
`Exception('Invalid keyword argument ...')` on the spot, ending the
constructor before the name default and `collect_arguments` run. -/
def initAttrs (kwargs : List (String × Val)) : Except String (List (String × Val)) :=
  kwargs.foldlM
    (fun acc p =>
      if classAttrs.contains p.1 then .ok (dictSet acc p.1 p.2)
      else .error ("Invalid keyword argument " ++ p.1))
    []

/-- `Command.__init__` end to end: the keyword loop, the class-name fallback
for `name`, then `collect_arguments` on the callable bound to `run` (the only
registration step of construction).  Returns the instance attribute
dictionary, the descriptor list and the parameter names. -/
def commandInit (className : String) (kwargs : List (String × Val)) (sig : Signature) :
    Except String (List (String × Val) × List Arg × List String) := do
  let attrs ← initAttrs kwargs
  let attrs :=
    if (dictGet attrs "name").getD Val.none = Val.none then
      dictSet attrs "name" (.str (camelcase_to_underscore className))
    else attrs
  let (args, names) ← collect_arguments sig
  pure (attrs, args, names)

/-! ### Expected results used in the claim statements -/

/-- The descriptor list the derivation claim expects for a signature with `n`
inspected parameter names of which the trailing `k` carry defaults: the first
`n - k` names as required descriptors with default `None` and no type hint,
then the last `k` names paired with their defaults as optional descriptors
typed by the default's runtime type. -/
def expectedDescriptors (sig : Signature) : List Arg :=
  let names := InspectedFunction.argument_names sig
  let ds := sig.defaults.getD []
  ((names.take (names.length - ds.length)).map fun nm =>
    { name := nm, required := true, type := Option.none, default := some Val.none })
  ++ (((names.drop (names.length - ds.length)).zip ds).map fun p =>
    { name := p.1, required := false, type := some (pytype p.2), default := some p.2 })

/-- The positional-argument list the dispatch claim expects from a parsed
namespace: the parsed values of the required descriptors, in parameter
order. -/
def expectedPositional (args : List Arg) (arg_names : List String) (ns : PyNamespace) :
    List Val :=
  (args.zip arg_names).filterMap
    (fun p => if p.1.required = true then dictGet ns p.2 else Option.none)

/-- The keyword mapping the dispatch claim expects from a parsed namespace:
one entry per optional descriptor for which the namespace holds a value. -/
def expectedKeywords (args : List Arg) (arg_names : List String) (ns : PyNamespace) :
    List (String × Val) :=
  dictOf ((args.zip arg_names).filterMap
    (fun p => if p.1.required = false then (dictGet ns p.2).map (fun v => (p.2, v))
              else Option.none))

/-- The signature of the spec's example command `greet(name, loud=False)`. -/
def greetSig : Signature :=
  { arguments := ["name", "loud"], defaults := some [.bool false] }

/-- The `greet` command as registration builds it from `greetSig`. -/
def greetCmd : Command :=
  match collect_arguments greetSig with
  | .ok (a, n) => { name := "greet", args := a, arg_names := n }
  | .error _ => { name := "greet" }

/-! ### Dictionary and list lemmas -/

theorem dictGet_dictSet {α : Type} (d : List (String × α)) (k k' : String) (v : α) :
    dictGet (dictSet d k v) k' = if k = k' then some v else dictGet d k' := by
  induction d with
  | nil =>
    by_cases h : k = k' <;> simp [dictSet, dictGet, List.find?, h]
  | cons p rest ih =>
    obtain ⟨pk, pv⟩ := p
    by_cases h1 : pk = k
    · subst h1
      by_cases h2 : pk = k' <;> simp [dictSet, dictGet, List.find?, h2]
    · by_cases h2 : pk = k'
      · subst h2
        have : ¬k = pk := fun h => h1 h.symm
        simp [dictSet, dictGet, List.find?, h1, this]
      · simp only [dictSet, if_neg h1]
        simp only [dictGet, List.find?, decide_eq_true_eq] at ih ⊢
        simp [h2, ih]

theorem dictSet_fresh {α : Type} (d : List (String × α)) (k : String) (v : α)
    (h : k ∉ d.map (fun p => p.1)) : dictSet d k v = d ++ [(k, v)] := by
  induction d with
  | nil => simp [dictSet]
  | cons p rest ih =>
    simp only [List.map_cons, List.mem_cons] at h
    push_neg at h
    have hne : ¬p.1 = k := fun hh => h.1 hh.symm
    simp only [dictSet, if_neg hne, List.cons_append]
    rw [ih h.2]

theorem dictOf_nodup {α : Type} (l : List (String × α))
    (h : (l.map (fun p => p.1)).Nodup) : dictOf l = l := by
  suffices H : ∀ (l acc : List (String × α)),
      ((acc ++ l).map (fun p => p.1)).Nodup →
      l.foldl (fun d p => dictSet d p.1 p.2) acc = acc ++ l by
    simpa using H l [] (by simpa using h)
  intro l
  induction l with
  | nil => intro acc _; simp
  | cons p rest ih =>
    intro acc hacc
    have hmap : ((acc.map (fun q => q.1)) ++ ((p :: rest).map (fun q => q.1))).Nodup := by
      simpa using hacc
    have hdisj := List.disjoint_of_nodup_append hmap
    have hfresh : p.1 ∉ acc.map (fun q => q.1) := by
      intro hmem
      exact hdisj hmem (by simp)
    simp only [List.foldl_cons]
    rw [dictSet_fresh acc p.1 p.2 hfresh]
    have := ih (acc ++ [p])
    simp only [List.append_assoc, List.singleton_append] at this
    exact this (by simpa using hacc)

theorem zip_reverse_eq {α β : Type} :
    ∀ (xs : List α) (ys : List β), xs.length = ys.length →
      xs.reverse.zip ys.reverse = (xs.zip ys).reverse := by
  intro xs
  induction xs with
  | nil =>
    intro ys h
    have : ys = [] := List.eq_nil_of_length_eq_zero h.symm
    simp [this]
  | cons x xs ih =>
    intro ys h
    match ys with
    | [] => simp at h
    | y :: ys =>
      simp only [List.length_cons, Nat.succ.injEq] at h
      simp only [List.reverse_cons, List.zip_cons_cons]
      rw [List.zip_append (by simp [h]), ih ys h]
      simp

theorem zip_reverse_drop {α β : Type} (xs : List α) (ys : List β)
    (h : ys.length ≤ xs.length) :
    xs.reverse.zip ys.reverse = ((xs.drop (xs.length - ys.length)).zip ys).reverse := by
  have hsplit := List.take_append_drop (xs.length - ys.length) xs
  have hlen : (xs.drop (xs.length - ys.length)).length = ys.length := by
    simp only [List.length_drop]
    omega
  calc xs.reverse.zip ys.reverse
      = ((xs.take (xs.length - ys.length) ++ xs.drop (xs.length - ys.length)).reverse).zip
          (ys.reverse ++ []) := by rw [hsplit]; simp
    _ = ((xs.drop (xs.length - ys.length)).reverse ++
          (xs.take (xs.length - ys.length)).reverse).zip (ys.reverse ++ []) := by
          rw [List.reverse_append]
    _ = (xs.drop (xs.length - ys.length)).reverse.zip ys.reverse ++
          ((xs.take (xs.length - ys.length)).reverse).zip ([] : List β) := by
          rw [List.zip_append (by simp [hlen])]
    _ = (xs.drop (xs.length - ys.length)).reverse.zip ys.reverse := by simp
    _ = ((xs.drop (xs.length - ys.length)).zip ys).reverse :=
          zip_reverse_eq _ _ hlen

theorem dictGet_dictOf {α : Type} (l : List (String × α)) (k : String) :
    dictGet (dictOf l) k = (l.reverse.find? (fun p => p.1 = k)).map (fun p => p.2) := by
  induction l using List.reverseRecOn with
  | nil => simp [dictOf, dictGet]
  | append_singleton l p ih =>
    have hfold : dictOf (l ++ [p]) = dictSet (dictOf l) p.1 p.2 := by
      simp [dictOf, List.foldl_append]
    rw [hfold, dictGet_dictSet, List.reverse_append]
    simp only [List.reverse_singleton, List.singleton_append, List.find?]
    by_cases h : p.1 = k
    · simp [h]
    · simp [h, ih]

theorem dictGet_map_value {α β : Type} (l : List (String × α)) (g : α → β) (k : String) :
    dictGet (l.map (fun p => (p.1, g p.2))) k = (dictGet l k).map g := by
  induction l with
  | nil => simp [dictGet]
  | cons p rest ih =>
    simp only [List.map_cons, dictGet, List.find?_cons]
    by_cases h : p.1 = k
    · simp [h]
    · rw [decide_eq_false h]
      simp only [dictGet] at ih
      exact ih

theorem dictGet_of_mem {α : Type} (l : List (String × α)) (k : String) (v : α)
    (hnd : (l.map (fun p => p.1)).Nodup) (hmem : (k, v) ∈ l) : dictGet l k = some v := by
  induction l with
  | nil => simp at hmem
  | cons p rest ih =>
    simp only [List.map_cons, List.nodup_cons] at hnd
    rcases List.mem_cons.mp hmem with heq | htail
    · subst heq
      simp [dictGet, List.find?]
    · have hk : k ∈ rest.map (fun p => p.1) :=
        List.mem_map.mpr ⟨(k, v), htail, rfl⟩
      have hne : ¬p.1 = k := fun hh => hnd.1 (hh ▸ hk)
      simp only [dictGet, List.find?_cons, decide_eq_false hne]
      simp only [dictGet] at ih
      exact ih hnd.2 htail

theorem register_argument_append (args : List Arg) (arg : Arg) (names0 : List String)
    (hdest : arg.dest = Option.none) (hmem : arg.name ∈ names0)
    (hhas : has_argument args arg.name = false) :
    register_argument args arg names0 = .ok (args ++ [arg]) := by
  unfold register_argument
  rw [hdest, Option.getD_none, if_pos hmem, hhas]
  simp

theorem collect_fold (names0 : List String) (f : String → Arg)
    (hname : ∀ x, (f x).name = x) (hdest : ∀ x, (f x).dest = Option.none) :
    ∀ (post pre : List String), (∀ x ∈ post, x ∈ names0) → (pre ++ post).Nodup →
      (post.map f).foldlM (fun acc a => register_argument acc a names0) (pre.map f)
        = .ok ((pre ++ post).map f) := by
  intro post
  induction post with
  | nil =>
    intro pre _ _
    simp only [List.map_nil, List.foldlM_nil, List.append_nil]
    rfl
  | cons x post ih =>
    intro pre hsub hnd
    have hxmem : (f x).name ∈ names0 := by rw [hname]; exact hsub x (by simp)
    have hxpre : x ∉ pre := by
      have hd := List.disjoint_of_nodup_append hnd
      exact fun hc => hd hc (by simp)
    have hhas : has_argument (pre.map f) (f x).name = false := by
      simp only [has_argument, hname, decide_eq_false_iff_not]
      intro hc
      rcases List.mem_map.mp hc with ⟨a, ha, haeq⟩
      rcases List.mem_map.mp ha with ⟨y, hy, hyeq⟩
      apply hxpre
      rw [← hyeq, hname] at haeq
      exact haeq ▸ hy
    rw [List.map_cons, List.foldlM_cons,
        register_argument_append (pre.map f) (f x) names0 (hdest x) hxmem hhas]
    show (post.map f).foldlM (fun acc a => register_argument acc a names0)
        ((pre.map f) ++ [f x]) = _
    rw [← List.map_singleton f, ← List.map_append]
    have heq : (pre ++ [x]) ++ post = pre ++ x :: post := by simp
    rw [ih (pre ++ [x]) (fun y hy => hsub y (by simp [hy])) (by rw [heq]; exact hnd), heq]

theorem kwargs_lookup (sig : Signature)
    (hk : (sig.defaults.getD []).length ≤ (InspectedFunction.argument_names sig).length)
    (name : String) :
    dictGet (InspectedFunction.kwargs sig) name =
      ((((InspectedFunction.argument_names sig).drop
            ((InspectedFunction.argument_names sig).length - (sig.defaults.getD []).length)).zip
          (sig.defaults.getD [])).find? (fun p => p.1 = name)).map (fun p => p.2) := by
  rcases hdef : sig.defaults with _ | ds
  · simp [InspectedFunction.kwargs, hdef, dictGet]
  · have hk' : ds.length ≤ (InspectedFunction.argument_names sig).length := by
      simpa [hdef] using hk
    have hklen : ds.length ≤ sig.arguments.length := by
      refine le_trans hk' ?_
      simp only [InspectedFunction.argument_names, List.length_drop]
      omega
    have hdropeq : sig.arguments.drop (sig.arguments.length - ds.length) =
        (InspectedFunction.argument_names sig).drop
          ((InspectedFunction.argument_names sig).length - ds.length) := by
      simp only [InspectedFunction.argument_names]
      by_cases hm : sig.isMethod
      · rcases harg : sig.arguments with _ | ⟨a, t⟩
        · simp
        · have hk2 : ds.length ≤ t.length := by
            simpa [harg, hm, InspectedFunction.argument_names] using hk'
          simp only [hm, if_pos, List.drop_drop, List.length_drop]
          congr 1
          simp only [harg, List.length_cons]
          omega
      · simp [hm]
    simp only [InspectedFunction.kwargs, hdef]
    rw [dictGet_dictOf, zip_reverse_drop sig.arguments ds hklen, List.reverse_reverse,
        hdropeq]
    simp [hdef]

theorem map_lookup_zip {β : Type} (mk : String → Option Val → β) :
    ∀ (ks : List String) (vs : List Val), ks.Nodup → ks.length = vs.length →
      ks.map (fun name =>
          mk name (((ks.zip vs).find? (fun p => p.1 = name)).map (fun p => p.2)))
        = (ks.zip vs).map (fun p => mk p.1 (some p.2)) := by
  intro ks
  induction ks with
  | nil => intro vs _ _; simp
  | cons x ks ih =>
    intro vs hnd hlen
    match vs with
    | [] => simp at hlen
    | v :: vs =>
      simp only [List.length_cons, Nat.succ.injEq] at hlen
      simp only [List.nodup_cons] at hnd
      have hfind : ∀ name ∈ ks,
          (((x, v) :: ks.zip vs).find? (fun p => p.1 = name))
            = (ks.zip vs).find? (fun p => p.1 = name) := by
        intro name hmem
        have hne : ¬(x, v).1 = name := by
          intro hh
          exact hnd.1 (by rw [show x = name from hh]; exact hmem)
        rw [List.find?_cons, decide_eq_false hne]
      have hhead : (((x, v) :: ks.zip vs).find? (fun p => p.1 = x)) = some (x, v) := by
        simp [List.find?_cons]
      simp only [List.zip_cons_cons, List.map_cons]
      congr 1
      · rw [hhead]
        rfl
      · have hcong : ∀ name ∈ ks,
            mk name (((((x, v) :: ks.zip vs).find? (fun p => p.1 = name)).map
              (fun p => p.2)))
            = mk name (((ks.zip vs).find? (fun p => p.1 = name)).map (fun p => p.2)) := by
          intro name hmem
          rw [hfind name hmem]
        rw [List.map_congr_left hcong]
        exact ih vs hnd.2 hlen

theorem collect_arguments_eq_map (sig : Signature) (hnd : sig.arguments.Nodup) :
    collect_arguments sig = .ok
      ((InspectedFunction.argument_names sig).map (fun name =>
        { name := name,
          default := some ((dictGet (InspectedFunction.kwargs sig) name).getD Val.none),
          type := (dictGet (InspectedFunction.kwargs sig) name).map pytype,
          required := (dictGet (InspectedFunction.kwargs sig) name).isNone }),
       InspectedFunction.argument_names sig) := by
  have hndnames : (InspectedFunction.argument_names sig).Nodup :=
    List.Nodup.sublist (List.drop_sublist _ _) hnd
  have hfold := collect_fold (InspectedFunction.argument_names sig)
    (fun name =>
      { name := name,
        default := some ((dictGet (InspectedFunction.kwargs sig) name).getD Val.none),
        type := (dictGet (InspectedFunction.kwargs sig) name).map pytype,
        required := (dictGet (InspectedFunction.kwargs sig) name).isNone })
    (fun _ => rfl) (fun _ => rfl)
    (InspectedFunction.argument_names sig) []
    (fun _ hx => hx) (by simpa using hndnames)
  simp only [List.map_nil, List.nil_append] at hfold
  unfold collect_arguments _create_arguments
  dsimp only
  rw [hfold]
  rfl

/-! ### Claim theorems -/

theorem map_create_split (names : List String) (ds : List Val) (kw : String → Option Val)
    (hnd : names.Nodup) (hk : ds.length ≤ names.length)
    (hlook : ∀ name, kw name =
      (((names.drop (names.length - ds.length)).zip ds).find?
        (fun p => p.1 = name)).map (fun p => p.2)) :
    names.map (fun name =>
      ({ name := name,
         default := some ((kw name).getD Val.none),
         type := (kw name).map pytype,
         required := (kw name).isNone } : Arg))
    = ((names.take (names.length - ds.length)).map (fun nm =>
        ({ name := nm,
           required := true,
           type := Option.none,
           default := some Val.none } : Arg)))
      ++ (((names.drop (names.length - ds.length)).zip ds).map (fun p =>
        ({ name := p.1,
           required := false,
           type := some (pytype p.2),
           default := some p.2 } : Arg))) := by
  have hsplit := List.take_append_drop (names.length - ds.length) names
  have hnddrop : (names.drop (names.length - ds.length)).Nodup :=
    List.Nodup.sublist (List.drop_sublist _ _) hnd
  have hlendrop : (names.drop (names.length - ds.length)).length = ds.length := by
    simp only [List.length_drop]
    omega
  conv_lhs => rw [← hsplit]
  rw [List.map_append]
  refine congrArg₂ (· ++ ·) ?_ ?_
  · refine List.map_congr_left ?_
    intro name hmem
    have hnone : kw name = Option.none := by
      rw [hlook name, List.find?_eq_none.mpr]
      · rfl
      · intro p hp
        have hp1 := (List.of_mem_zip hp).1
        simp only [decide_eq_true_eq]
        intro heq
        exact List.disjoint_of_nodup_append (hsplit.symm ▸ hnd) hmem (heq ▸ hp1)
    rw [hnone]
    rfl
  · refine Eq.trans (List.map_congr_left (fun name _ => by rw [hlook name])) ?_
    exact Eq.trans
      (map_lookup_zip
        (fun nm ov =>
          ({ name := nm,
             default := some (ov.getD Val.none),
             type := ov.map pytype,
             required := ov.isNone } : Arg))
        (names.drop (names.length - ds.length)) ds hnddrop hlendrop)
      rfl

/-- C1: for every callable whose signature has `n` inspected parameter names
(receiver excluded when instance-bound) of which the trailing `k` carry
default values, the collected descriptor list has exactly `n` entries in the
original signature order: the first `n - k` marked required with default
`None` and no type hint, and the last `k` marked optional carrying their
default value and a type hint inferred from that default's runtime type. -/
theorem C1_descriptor_derivation (sig : Signature)
    (hnd : sig.arguments.Nodup)
    (hk : (sig.defaults.getD []).length ≤ (InspectedFunction.argument_names sig).length) :
    collect_arguments sig
      = .ok (expectedDescriptors sig, InspectedFunction.argument_names sig)
    ∧ (expectedDescriptors sig).length = (InspectedFunction.argument_names sig).length := by
  have hndnames : (InspectedFunction.argument_names sig).Nodup :=
    List.Nodup.sublist (List.drop_sublist _ _) hnd
  have hlendrop : ((InspectedFunction.argument_names sig).drop
      ((InspectedFunction.argument_names sig).length - (sig.defaults.getD []).length)).length
      = (sig.defaults.getD []).length := by
    simp only [List.length_drop]
    omega
  constructor
  · rw [collect_arguments_eq_map sig hnd]
    refine congrArg _ (congrArg (fun l => (l, InspectedFunction.argument_names sig)) ?_)
    rw [expectedDescriptors]
    exact map_create_split (InspectedFunction.argument_names sig) (sig.defaults.getD [])
      (fun name => dictGet (InspectedFunction.kwargs sig) name) hndnames hk
      (kwargs_lookup sig hk)
  · simp only [expectedDescriptors, List.length_append, List.length_map, List.length_zip,
      List.length_take, List.length_drop, hlendrop]
    omega

/-- C1 witness: the derivation applied to the example signature
`greet(name, loud=False)`. -/
theorem C1_descriptor_derivation_witness :
    greetSig.arguments.Nodup
    ∧ (greetSig.defaults.getD []).length ≤ (InspectedFunction.argument_names greetSig).length
    ∧ (collect_arguments greetSig
        = .ok (expectedDescriptors greetSig, InspectedFunction.argument_names greetSig)
      ∧ (expectedDescriptors greetSig).length
          = (InspectedFunction.argument_names greetSig).length) :=
  ⟨by decide, by decide, C1_descriptor_derivation greetSig (by decide) (by decide)⟩

/-- C2 counterexample: an override whose `name` (`"x"`) is not among the
command's known parameter names (`["a"]`) but whose `dest` attribute is,
does not fail: `register_argument` validates the `dest` and appends the
override, growing the descriptor list from one entry to two. -/
theorem C2_counterexample :
    ("x" ∉ (["a"] : List String))
    ∧ register_argument [{ name := "a" }] { name := "x", dest := some "a" } ["a"]
        = .ok [{ name := "a" }, { name := "x", dest := some "a" }] := by
  exact ⟨by decide, rfl⟩

/-- C2 amended: registering an override whose destination name (the `dest`
attribute when present, otherwise the `name`) is not among the command's known
parameter names fails with the argument error; when the destination is known
and the override's name already has a descriptor, the descriptor at the
destination's ordinal position is replaced in place, leaving the list length
and every other position unchanged; when the override's name has no
descriptor yet, the override is appended. -/
theorem C2_register_argument (args : List Arg) (arg : Arg) (arg_names : List String) :
    ((arg.dest.getD arg.name) ∉ arg_names →
      register_argument args arg arg_names = .error ("Invalid arg " ++ arg.name))
    ∧ ((arg.dest.getD arg.name) ∈ arg_names →
        has_argument args arg.name = true →
        arg_names.indexOf (arg.dest.getD arg.name) < args.length →
        register_argument args arg arg_names
          = .ok (args.set (arg_names.indexOf (arg.dest.getD arg.name)) arg)
        ∧ (args.set (arg_names.indexOf (arg.dest.getD arg.name)) arg).length = args.length
        ∧ ∀ j, j ≠ arg_names.indexOf (arg.dest.getD arg.name) →
            (args.set (arg_names.indexOf (arg.dest.getD arg.name)) arg)[j]? = args[j]?)
    ∧ ((arg.dest.getD arg.name) ∈ arg_names →
        has_argument args arg.name = false →
        register_argument args arg arg_names = .ok (args ++ [arg])) := by
  refine ⟨?_, ?_, ?_⟩
  · intro hnot
    unfold register_argument
    rw [if_neg hnot]
  · intro hmem hhas hlt
    refine ⟨?_, List.length_set args _ arg, ?_⟩
    · unfold register_argument
      rw [if_pos hmem, hhas, if_pos hlt]
      simp
    · intro j hj
      exact List.getElem?_set_ne (fun hh => hj hh.symm)
  · intro hmem hhas
    unfold register_argument
    rw [if_pos hmem, hhas]
    simp

/-- C2 witness: replacing the existing descriptor for `b` in a two-descriptor
command leaves the first descriptor and the length unchanged. -/
theorem C2_register_argument_witness :
    register_argument [{ name := "a" }, { name := "b" }]
        { name := "b", help := "overridden" } ["a", "b"]
      = .ok [{ name := "a" }, { name := "b", help := "overridden" }] := by
  have h := (C2_register_argument [{ name := "a" }, { name := "b" }]
    { name := "b", help := "overridden" } ["a", "b"]).2.1 (by decide) (by decide) (by decide)
  exact h.1.trans rfl

theorem kwargs_fields (a : Arg) (d : ParserKwargs) (h : a.kwargs = .ok d) :
    d.required = (if a.positional then Option.none else some a.required)
    ∧ d.nargs = (if !a.required && a.positional then some "?" else Option.none)
    ∧ d.default = a.default.map a.unwrap_default := by
  simp only [Arg.kwargs] at h
  split at h
  · split at h
    · simp at h
    · split at h
      · injection h with h
        subst h
        exact ⟨rfl, rfl, rfl⟩
      · injection h with h
        subst h
        exact ⟨rfl, rfl, rfl⟩
  · injection h with h
    subst h
    exact ⟨rfl, rfl, rfl⟩

/-- C3: rendering a descriptor produces the bare name as display name when it
is positional and the flag-prefixed name otherwise; no explicit `required`
directive when positional; the zero-or-one-occurrence directive `nargs='?'`
exactly when the descriptor is optional and positional; and the default value
with any positional marker unwrapped. -/
theorem C3_render_directives (a : Arg) (d : ParserKwargs) (h : a.kwargs = .ok d) :
    a.parser_name = (if a.positional = true then a.name else "--" ++ a.name)
    ∧ (a.positional = true → d.required = Option.none)
    ∧ (d.nargs = some "?" ↔ (a.required = false ∧ a.positional = true))
    ∧ (∀ v, a.default = some v → d.default = some (a.unwrap_default v)) := by
  obtain ⟨hreq, hnargs, hdef⟩ := kwargs_fields a d h
  refine ⟨rfl, ?_, ?_, ?_⟩
  · intro hp
    rw [hreq, if_pos hp]
  · rw [hnargs]
    by_cases h1 : a.required
    · simp [h1]
    · by_cases h2 : a.positional
      · simp [h1, h2]
      · simp [h1, h2]
  · intro v hv
    rw [hdef, hv]
    rfl

/-- C3 witness: an optional positional descriptor (default wrapped in the
positional marker) renders with a bare display name, no `required` directive,
`nargs='?'`, and the unwrapped default. -/
theorem C3_render_directives_witness :
    (Arg.kwargs { name := "opt", default := some (.positionalV (.str "v")) }
      = .ok { help := "no description", required := Option.none,
              type := some Option.none, default := some (.str "v"),
              nargs := some "?", action := Option.none, dest := Option.none })
    ∧ ((({ name := "opt", default := some (.positionalV (.str "v")) } : Arg).parser_name
        = (if ({ name := "opt", default := some (.positionalV (.str "v")) } : Arg).positional
              = true
           then "opt" else "--" ++ "opt"))
      ∧ (({ name := "opt", default := some (.positionalV (.str "v")) } : Arg).positional = true →
          (Option.none : Option Bool) = Option.none)
      ∧ ((some "?" : Option String) = some "?" ↔
          (({ name := "opt", default := some (.positionalV (.str "v")) } : Arg).required = false
          ∧ ({ name := "opt", default := some (.positionalV (.str "v")) } : Arg).positional
              = true))) := by
  have h := C3_render_directives { name := "opt", default := some (.positionalV (.str "v")) }
    { help := "no description", required := Option.none, type := some Option.none,
      default := some (.str "v"), nargs := some "?", action := Option.none,
      dest := Option.none } rfl
  exact ⟨rfl, h.1, h.2.1, h.2.2.1⟩

/-- C4: an optional descriptor whose type hint is boolean and whose default is
`False` renders as a zero-argument `store_true` switch, and the rendered
directives carry no explicit type entry (the `type` key is deleted). -/
theorem C4_bool_switch (a : Arg) (h1 : a.required = false) (h2 : a.type = some .boolTy)
    (h3 : a.default = some (.bool false)) :
    ∃ d, a.kwargs = .ok d ∧ d.action = some "store_true" ∧ d.type = Option.none := by
  refine ⟨{ help := a.help,
            required := if a.positional then Option.none else some a.required,
            type := Option.none,
            default := a.default.map a.unwrap_default,
            nargs := if !a.required && a.positional then some "?" else Option.none,
            action := some "store_true",
            dest := a.dest }, ?_, rfl, rfl⟩
  simp only [Arg.kwargs, h2, h3]
  simp

/-- C4 witness: the `loud` descriptor of the spec's example renders as a
`store_true` switch with no type directive. -/
theorem C4_bool_switch_witness :
    ∃ d, Arg.kwargs { name := "loud", required := false, type := some .boolTy,
                      default := some (.bool false) } = .ok d
      ∧ d.action = some "store_true" ∧ d.type = Option.none :=
  C4_bool_switch
    { name := "loud", required := false, type := some .boolTy,
      default := some (.bool false) } rfl rfl rfl

theorem parseNamespace_go (ns : PyNamespace) :
    ∀ (l : List (Arg × String)) (acc : List Val × List (String × Val)),
      (∀ p ∈ l, p.1.required = true → (dictGet ns p.2).isSome = true) →
      l.foldlM (parseStep ns) acc = .ok
        (acc.1 ++ l.filterMap
          (fun p => if p.1.required = true then dictGet ns p.2 else Option.none),
         (l.filterMap (fun p =>
            if p.1.required = false then (dictGet ns p.2).map (fun v => (p.2, v))
            else Option.none)).foldl (fun d q => dictSet d q.1 q.2) acc.2) := by
  intro l
  induction l with
  | nil =>
    intro acc _
    simp [List.foldlM_nil]
    rfl
  | cons p l ih =>
    intro acc h
    rw [List.foldlM_cons]
    by_cases hreq : p.1.required = true
    · obtain ⟨v, hv⟩ := Option.isSome_iff_exists.mp (h p (by simp) hreq)
      have hstep : parseStep ns acc p = .ok (acc.1 ++ [v], acc.2) := by
        unfold parseStep
        rw [if_pos hreq, hv]
      rw [hstep]
      show l.foldlM (parseStep ns) (acc.1 ++ [v], acc.2) = _
      rw [ih (acc.1 ++ [v], acc.2) (fun q hq => h q (by simp [hq]))]
      simp [List.filterMap_cons, hreq, hv]
    · have hreq' : p.1.required = false := by
        cases hr : p.1.required
        · rfl
        · exact absurd hr hreq
      cases hv : dictGet ns p.2 with
      | none =>
        have hstep : parseStep ns acc p = .ok acc := by
          unfold parseStep
          rw [if_neg hreq, hv]
        rw [hstep]
        show l.foldlM (parseStep ns) acc = _
        rw [ih acc (fun q hq => h q (by simp [hq]))]
        simp [List.filterMap_cons, hreq', hv]
      | some v =>
        have hstep : parseStep ns acc p = .ok (acc.1, dictSet acc.2 p.2 v) := by
          unfold parseStep
          rw [if_neg hreq, hv]
        rw [hstep]
        show l.foldlM (parseStep ns) (acc.1, dictSet acc.2 p.2 v) = _
        rw [ih (acc.1, dictSet acc.2 p.2 v) (fun q hq => h q (by simp [hq]))]
        simp [List.filterMap_cons, hreq', hv]

/-- C5: for every command and every parsed namespace in which each required
name received a value, the split step of `Command.parse` produces the
positional list holding exactly the required descriptors' values in parameter
order, and a keyword mapping with an entry for an optional descriptor exactly
when the namespace holds a value for it; and concretely, the example command
`greet(name, loud=False)` parsed on the raw vector `["Ada", "--loud"]`
through the rendered parser yields positional `"Ada"` and keyword
`loud=True`. -/
theorem C5_parse_dispatch :
    (∀ (args : List Arg) (arg_names : List String) (ns : PyNamespace),
      (∀ p ∈ args.zip arg_names, p.1.required = true → (dictGet ns p.2).isSome = true) →
      parseNamespace args arg_names ns
        = .ok (expectedPositional args arg_names ns, expectedKeywords args arg_names ns))
    ∧ greetCmd.parse ["Ada", "--loud"] = .ok ([.str "Ada"], [("loud", .bool true)])
    ∧ greetCmd.args = [{ name := "name", required := true, type := Option.none,
                         default := some Val.none },
                       { name := "loud", required := false, type := some .boolTy,
                         default := some (.bool false) }] := by
  refine ⟨?_, rfl, rfl⟩
  intro args arg_names ns h
  unfold parseNamespace expectedPositional expectedKeywords
  rw [parseNamespace_go ns (args.zip arg_names) ([], []) h]
  simp only [List.nil_append]
  rfl

/-- C5 witness: the split step at a one-required-argument command and a
namespace carrying a value for it. -/
theorem C5_parse_dispatch_witness :
    parseNamespace [{ name := "name", required := true }] ["name"] [("name", .str "Ada")]
      = .ok (expectedPositional [{ name := "name", required := true }] ["name"]
               [("name", .str "Ada")],
             expectedKeywords [{ name := "name", required := true }] ["name"]
               [("name", .str "Ada")]) :=
  C5_parse_dispatch.1 [{ name := "name", required := true }] ["name"]
    [("name", .str "Ada")] (by decide)

/-- C6: under `execute`, a raised library `Error` (the domain error) is
captured and handed to the output step as the command's result; but a
non-domain fault is NOT re-raised as itself: the `finally: return
self.puts(result)` clause evaluates the unbound local `result` and raises
`UnboundLocalError`, which supersedes and discards the original fault, so the
original fault never propagates past `execute`. -/
theorem C6_execute_faults :
    Command.execute (.raisesError "bad input") = .ok (.err "bad input")
    ∧ Command.execute (.raisesFault "ValueError") = .error .unboundLocalError
    ∧ (∀ f, Command.execute (.raisesFault f) ≠ .error (.fault f)) := by
  refine ⟨rfl, rfl, ?_⟩
  intro f h
  simp [Command.execute] at h

/-- C7 counterexample: a callable with a variadic positional parameter is not
rejected at registration time: `_inspect` succeeds (the variadic components
are discarded unread) and the whole registration pipeline derives an empty
descriptor list; no signature error exists or is raised. -/
theorem C7_counterexample :
    (Signature.varargs { arguments := [], varargs := some "args", varkw := Option.none,
                         defaults := Option.none, isMethod := false }).isSome = true
    ∧ InspectedFunction.inspect { arguments := [], varargs := some "args",
                                  varkw := Option.none, defaults := Option.none,
                                  isMethod := false }
      = .ok ([], Option.none)
    ∧ collect_arguments { arguments := [], varargs := some "args", varkw := Option.none,
                          defaults := Option.none, isMethod := false } = .ok ([], []) :=
  ⟨rfl, rfl, rfl⟩

/-- C7 amended: signature inspection never fails on variadic parameters: it
returns the named parameters and defaults unconditionally, and descriptor
collection is oblivious to the variadic components. -/
theorem C7_variadics_accepted (sig : Signature) :
    InspectedFunction.inspect sig = .ok (sig.arguments, sig.defaults)
    ∧ (∀ va vk, collect_arguments { sig with varargs := va, varkw := vk }
        = collect_arguments sig) :=
  ⟨rfl, fun _ _ => rfl⟩

theorem string_append_cancel_left (s a b : String) (h : s ++ a = s ++ b) : a = b := by
  cases a
  cases b
  simp only [String.ext_iff, String.data_append] at h ⊢
  exact List.append_cancel_left h

theorem merge_fold_preserve (upd : Command → Command) :
    ∀ (entries : List (String × Command)) (acc : Manager) (t : String),
      (∀ p ∈ entries, (upd p.2).path ≠ t) →
      dictGet ((entries.foldl (fun m p => m.add_command (upd p.2)) acc).commands) t
        = dictGet acc.commands t := by
  intro entries
  induction entries with
  | nil => intro acc t _; rfl
  | cons e rest ih =>
    intro acc t h
    simp only [List.foldl_cons]
    rw [ih _ t (fun p hp => h p (by simp [hp]))]
    show dictGet (dictSet acc.commands (upd e.2).path (upd e.2)) t = _
    rw [dictGet_dictSet]
    rw [if_neg (h e (by simp))]

theorem merge_fold_lookup (upd : Command → Command) :
    ∀ (entries : List (String × Command)) (acc : Manager) (k : String) (c : Command),
      (entries.map (fun p => (upd p.2).path)).Nodup →
      (k, c) ∈ entries →
      dictGet ((entries.foldl (fun m p => m.add_command (upd p.2)) acc).commands)
        (upd c).path = some (upd c) := by
  intro entries
  induction entries with
  | nil => intro acc k c _ hmem; simp at hmem
  | cons e rest ih =>
    intro acc k c hnd hmem
    simp only [List.map_cons, List.nodup_cons] at hnd
    rcases List.mem_cons.mp hmem with heq | htail
    · subst heq
      simp only [List.foldl_cons]
      rw [merge_fold_preserve upd rest _ _
        (fun p hp hpath => hnd.1 (List.mem_map.mpr ⟨p, hp, hpath⟩))]
      show dictGet (dictSet acc.commands (upd c).path (upd c)) (upd c).path = _
      rw [dictGet_dictSet, if_pos rfl]
    · simp only [List.foldl_cons]
      exact ih _ k c hnd.2 htail

/-- C8: merging a source registry into a target under an explicit namespace
makes every source command reachable in the target under `ns.name`, with
every field other than the namespace unchanged; and the source registry's own
descriptor (shared object) has its namespace overwritten in place — a move,
not a copy. -/
theorem C8_merge_namespace (tgt src : Manager) (ns : String) (key : String) (c : Command)
    (hmem : (key, c) ∈ src.commands)
    (hnames : (src.commands.map (fun p => p.2.name)).Nodup)
    (hkeys : (src.commands.map (fun p => p.1)).Nodup) :
    dictGet ((tgt.merge src (some ns)).1).commands (ns ++ "." ++ c.name)
      = some { c with nspace := some ns }
    ∧ dictGet ((tgt.merge src (some ns)).2).commands key
      = some { c with nspace := some ns } := by
  have hpath : ∀ c' : Command,
      ({ c' with nspace := some ns } : Command).path = ns ++ "." ++ c'.name := fun _ => rfl
  have hinj : ∀ a b : String, ns ++ "." ++ a = ns ++ "." ++ b → a = b := by
    intro a b h
    exact string_append_cancel_left "." a b
      (string_append_cancel_left ns ("." ++ a) ("." ++ b)
        (by rwa [String.append_assoc, String.append_assoc] at h))
  constructor
  · have hndpaths : (src.commands.map
        (fun p => ({ p.2 with nspace := some ns } : Command).path)).Nodup := by
      have : (src.commands.map
            (fun p => ({ p.2 with nspace := some ns } : Command).path))
          = (src.commands.map (fun p => p.2.name)).map (fun nm => ns ++ "." ++ nm) := by
        rw [List.map_map]
        rfl
      rw [this]
      exact List.Nodup.map (fun a b hab => hinj a b hab) hnames
    have h := merge_fold_lookup (fun c' => { c' with nspace := some ns })
      src.commands tgt key c hndpaths hmem
    rw [hpath c] at h
    exact h
  · show dictGet (src.commands.map
        (fun p => (p.1, ({ p.2 with nspace := some ns } : Command)))) key
      = some { c with nspace := some ns }
    have h2 := dictGet_map_value src.commands
      (fun c' => ({ c' with nspace := some ns } : Command)) key
    rw [dictGet_of_mem src.commands key c hkeys hmem] at h2
    exact h2

/-- C8 witness: merging a one-command source registry under namespace `ns`
makes the command reachable as `ns.x` in the target, and mutates the source
entry's namespace in place. -/
theorem C8_merge_namespace_witness :
    dictGet ((Manager.merge ⟨[]⟩ ⟨[("x", { name := "x" })]⟩ (some "ns")).1).commands
        ("ns" ++ "." ++ "x")
      = some { name := "x", nspace := some "ns" }
    ∧ dictGet ((Manager.merge ⟨[]⟩ ⟨[("x", { name := "x" })]⟩ (some "ns")).2).commands "x"
      = some { name := "x", nspace := some "ns" } :=
  C8_merge_namespace ⟨[]⟩ ⟨[("x", { name := "x" })]⟩ "ns" "x" { name := "x" }
    (by decide) (by decide) (by decide)

/-- C9: `parse_env` yields one mapping entry per line matching `NAME=value`
(in line order, when the matched names are distinct), with the value stripped
of surrounding quote characters only when the value both starts and ends with
the same quote character; in particular the content
`key="value"\nother=plain` parses to `key ↦ value, other ↦ plain`. -/
theorem C9_parse_env_spec (content : String) (s : List Char) :
    ((((splitLines content.data).filterMap envLine?).map (fun p => p.1)).Nodup →
      Manager.parse_env content
        = ((splitLines content.data).filterMap envLine?).map
            (fun p => (p.1, String.mk (strip_quotes p.2))))
    ∧ ((¬(startsWithChar s '\'' = true ∧ endsWithChar s '\'' = true)
        ∧ ¬(startsWithChar s '"' = true ∧ endsWithChar s '"' = true)) →
        strip_quotes s = s)
    ∧ Manager.parse_env "key=\"value\"\nother=plain"
        = [("key", "value"), ("other", "plain")] := by
  refine ⟨?_, ?_, by rfl⟩
  · intro hnd
    unfold Manager.parse_env
    apply dictOf_nodup
    simpa [List.map_map, Function.comp] using hnd
  · intro h
    have hb1 : ¬((startsWithChar s '\'' && endsWithChar s '\'') = true) := by
      simp only [Bool.and_eq_true]
      exact h.1
    have hb2 : ¬((startsWithChar s '"' && endsWithChar s '"') = true) := by
      simp only [Bool.and_eq_true]
      exact h.2
    unfold strip_quotes
    rw [if_neg hb1, if_neg hb2]

/-- C9 witness: the example content has distinct matched names, and `plain`
carries no symmetric quotes and is left unstripped. -/
theorem C9_parse_env_spec_witness :
    Manager.parse_env "key=\"value\"\nother=plain"
      = ((splitLines ("key=\"value\"\nother=plain").data).filterMap envLine?).map
          (fun p => (p.1, String.mk (strip_quotes p.2)))
    ∧ strip_quotes "plain".data = "plain".data :=
  ⟨(C9_parse_env_spec "key=\"value\"\nother=plain" "plain".data).1 (by decide),
   (C9_parse_env_spec "key=\"value\"\nother=plain" "plain".data).2.1 (by decide)⟩

theorem initAttrs_go_ok :
    ∀ (l : List (String × Val)) (acc : List (String × Val)),
      (∀ p ∈ l, p.1 ∈ classAttrs) →
      l.foldlM (fun acc p =>
          if classAttrs.contains p.1 then Except.ok (dictSet acc p.1 p.2)
          else Except.error ("Invalid keyword argument " ++ p.1)) acc
        = .ok (l.foldl (fun d p => dictSet d p.1 p.2) acc) := by
  intro l
  induction l with
  | nil => intro acc _; rfl
  | cons e rest ih =>
    intro acc h
    rw [List.foldlM_cons]
    have he : classAttrs.contains e.1 = true :=
      List.elem_eq_true_of_mem (h e (by simp))
    rw [he]
    show rest.foldlM _ (dictSet acc e.1 e.2) = _
    rw [ih (dictSet acc e.1 e.2) (fun p hp => h p (by simp [hp]))]
    rfl

theorem initAttrs_go_err :
    ∀ (l : List (String × Val)) (acc : List (String × Val)),
      (∃ p ∈ l, p.1 ∉ classAttrs) →
      ∃ msg, l.foldlM (fun acc p =>
          if classAttrs.contains p.1 then Except.ok (dictSet acc p.1 p.2)
          else Except.error ("Invalid keyword argument " ++ p.1)) acc
        = .error msg := by
  intro l
  induction l with
  | nil => intro acc h; simp at h
  | cons e rest ih =>
    intro acc h
    rw [List.foldlM_cons]
    by_cases he : e.1 ∈ classAttrs
    · have he' : classAttrs.contains e.1 = true := List.elem_eq_true_of_mem he
      rw [he']
      obtain ⟨p, hp, hbad⟩ := h
      rcases List.mem_cons.mp hp with heq | htail
      · exact absurd he (heq ▸ hbad)
      · exact ih (dictSet acc e.1 e.2) ⟨p, htail, hbad⟩
    · have he' : classAttrs.contains e.1 = false := by
        rcases hc : classAttrs.contains e.1
        · rfl
        · exact absurd (List.mem_of_elem_eq_true hc) he
      rw [he']
      exact ⟨"Invalid keyword argument " ++ e.1, rfl⟩

/-- C10: constructing a `Command` with a keyword argument whose name is not an
existing attribute of the command class raises inside the keyword loop of
`__init__`, ending the constructor before the argument-collection step, while
a keyword set of valid names sets each named attribute on the instance. -/
theorem C10_init_kwargs (className : String) (kwargs : List (String × Val))
    (sig : Signature) :
    ((∃ p ∈ kwargs, p.1 ∉ classAttrs) →
      ∃ msg, initAttrs kwargs = .error msg
        ∧ commandInit className kwargs sig = .error msg)
    ∧ ((∀ p ∈ kwargs, p.1 ∈ classAttrs) →
        initAttrs kwargs = .ok (dictOf kwargs)
        ∧ ((kwargs.map (fun p => p.1)).Nodup →
            ∀ p ∈ kwargs, dictGet (dictOf kwargs) p.1 = some p.2)) := by
  constructor
  · intro hbad
    obtain ⟨msg, hmsg⟩ := initAttrs_go_err kwargs [] hbad
    refine ⟨msg, hmsg, ?_⟩
    unfold commandInit
    rw [show initAttrs kwargs = .error msg from hmsg]
    rfl
  · intro hgood
    refine ⟨initAttrs_go_ok kwargs [] hgood, ?_⟩
    intro hnd p hp
    rw [dictOf_nodup kwargs hnd]
    exact dictGet_of_mem kwargs p.1 p.2 hnd hp

/-- C10 witness: the keyword `bogus` is rejected before collection, and the
keyword `name` (an existing attribute) is set on the instance. -/
theorem C10_init_kwargs_witness :
    (∃ p ∈ [(("bogus" : String), Val.int 1)], p.1 ∉ classAttrs)
    ∧ (∃ msg, initAttrs [("bogus", Val.int 1)] = .error msg
        ∧ commandInit "X" [("bogus", Val.int 1)] greetSig = .error msg)
    ∧ dictGet (dictOf [(("name" : String), Val.str "n")]) "name" = some (Val.str "n") := by
  refine ⟨by decide,
    (C10_init_kwargs "X" [("bogus", Val.int 1)] greetSig).1 (by decide), ?_⟩
  exact ((C10_init_kwargs "X" [("name", Val.str "n")] greetSig).2 (by decide)).2
    (by decide) ("name", Val.str "n") (by decide)

end ManagePy
